import Mathlib

/-!
# Verification of the ReorderService synchronization engine

Shallow embedding of the offline-first reorder-list engine
(`ReorderService` in the repository source).  Stateful TypeScript code is
translated into explicit state passing: every method of the service class
becomes a pure Lean function from a `ServiceState` (the private fields of
the class) to a new `ServiceState`, together with the list of listener
broadcasts it emitted and its returned value.  Remote (GraphQL) calls are
modelled by explicit parameters describing the remote outcome, local-id
minting (`Date.now()` + random suffix) by an explicit fresh-id parameter,
and the wall clock by an explicit `now : Nat` (milliseconds).
ISO-8601 timestamp strings are modelled as `Nat` instants; JS numbers that
the engine only stores and never computes with are modelled as `Int`.
-/

set_option maxHeartbeats 1000000

namespace ReorderModel

/-- `TeamData` interface: auxiliary per-record enrichment payload. -/
structure TeamData where
  vendor : Option String := none
  vendorCost : Option Int := none
  caseUpc : Option String := none
  caseCost : Option Int := none
  caseQuantity : Option Int := none
  discontinued : Option Bool := none
  notes : Option String := none
deriving DecidableEq, Repr

/-- `ReorderItem` interface: one record of the in-memory collection.
`createdAt`/`updatedAt` are the ISO timestamps (as instants); `timestamp`
and `index` are the locally computed fields.  The pass-through `item?`
field (never read by the service) is omitted. -/
structure ReorderItem where
  id : String
  itemId : String
  itemName : String
  itemBarcode : Option String := none
  itemCategory : Option String := none
  itemPrice : Option Int := none
  quantity : Int
  completed : Bool
  addedBy : String
  createdAt : Nat
  updatedAt : Nat
  teamData : Option TeamData := none
  timestamp : Option Nat := none
  index : Option Nat := none
deriving DecidableEq, Repr

/-- The projection of `ConvertedItem` that `addItem` reads
(`id`, `name`, `barcode`, `category`, `price`). -/
structure ConvertedItem where
  id : String
  name : Option String := none
  barcode : Option String := none
  category : Option String := none
  price : Option Int := none
deriving DecidableEq, Repr

/-- Argument record of `addCustomItem`. -/
structure CustomItemInput where
  itemName : String
  itemCategory : Option String := none
  quantity : Int
  addedBy : String
  vendor : Option String := none
  notes : Option String := none
deriving DecidableEq, Repr

/-- A row of team data as stored in the local db (`modernDb.getTeamData`)
or delivered by the remote `getItemData` query (with the remote `notes`
array already projected to `notes?.[0]?.content`). -/
structure ItemDataRow where
  vendor : Option String := none
  caseUpc : Option String := none
  caseCost : Option Int := none
  caseQuantity : Option Int := none
  discontinued : Option Bool := none
  notes : Option String := none
deriving DecidableEq, Repr

/-- Enrichment cache: `Map<string, { data, timestamp }>`. -/
abbrev TeamCache := List (String × TeamData × Nat)

/-- Outcome of a wrapped remote GraphQL call: the response carried data
(truthy `response.data?...`), the response was empty (falsy data, no
exception), or the call threw. -/
inductive RemoteResult where
  | ok
  | noData
  | err
deriving DecidableEq, Repr

/-- The private fields of the `ReorderService` class that the modelled
operations read or write.  `offlineStorage` is the AsyncStorage blob under
`STORAGE_KEY`. -/
structure ServiceState where
  reorderItems : List ReorderItem := []
  pendingSyncItems : List ReorderItem := []
  isOfflineMode : Bool := false
  teamDataCache : TeamCache := []
  offlineStorage : Option (List ReorderItem) := none
  isInit : Bool := false
  currentUserId : Option String := none
deriving DecidableEq, Repr

/-- Result of one public operation: the new state, the snapshots passed to
listeners (one per `notifyListeners()` call, each a copy of
`reorderItems`), and the operation's returned boolean. -/
structure OpResult where
  state : ServiceState
  broadcasts : List (List ReorderItem)
  ret : Bool
deriving DecidableEq, Repr

/-! ## JavaScript helpers -/

/-- JS `s || d` on a string already known to be a string. -/
def jsOr (s d : String) : String := if s = "" then d else s

/-- JS `s || d` on a possibly-undefined string. -/
def jsOrOpt (s : Option String) (d : String) : String :=
  match s with
  | some v => if v = "" then d else v
  | none => d

/-- JS `s || undefined` on a possibly-undefined string. -/
def jsOrUndef (s : Option String) : Option String :=
  match s with
  | some v => if v = "" then none else some v
  | none => none

/-! ## List helpers (JS `findIndex` + element, in-place update, splice) -/

/-- JS `findIndex` paired with the found element. -/
def findWithIdx (p : α → Bool) : List α → Option (Nat × α)
  | [] => none
  | x :: xs => if p x then some (0, x) else (findWithIdx p xs).map (fun q => (q.1 + 1, q.2))

/-- In-place update of the element at a position (JS `l[i] = y`). -/
def replaceAt : List α → Nat → α → List α
  | [], _, _ => []
  | _ :: xs, 0, y => y :: xs
  | x :: xs, n + 1, y => x :: replaceAt xs n y

/-- JS `l.splice(i, 1)`. -/
def eraseAt : List α → Nat → List α
  | [], _ => []
  | _ :: xs, 0 => xs
  | x :: xs, n + 1 => x :: eraseAt xs n

/-- The `forEach((item, index) => { item.index = index + 1 })` re-indexing
loop, generalized over the starting offset. -/
def reindexFrom : List ReorderItem → Nat → List ReorderItem
  | [], _ => []
  | x :: xs, n => { x with index := some (n + 1) } :: reindexFrom xs (n + 1)

/-- Dense 1-based re-indexing of the collection. -/
def reindex (l : List ReorderItem) : List ReorderItem := reindexFrom l 0

/-- Map with the element position (used by the `map((item, index) => ...)`
normalizations in the load paths). -/
def mapWithIdx : List α → Nat → (Nat → α → β) → List β
  | [], _, _ => []
  | x :: xs, n, f => f n x :: mapWithIdx xs (n + 1) f

/-- Identifiers of a list of records. -/
def idsOf (l : List ReorderItem) : List String := l.map (fun r => r.id)

/-! ## Enrichment cache -/

/-- `CACHE_DURATION = 5 * 60 * 1000` (5 minutes). -/
def CACHE_DURATION : Nat := 5 * 60 * 1000

/-- `Map.get`. -/
def cacheGet (c : TeamCache) (k : String) : Option (TeamData × Nat) :=
  (c.find? (fun p => p.1 = k)).map (fun p => p.2)

/-- `Map.set` (replace the entry for the key, or add one). -/
def cacheSet (c : TeamCache) (k : String) (v : TeamData × Nat) : TeamCache :=
  (c.filter (fun p => p.1 ≠ k)) ++ [(k, v)]

/-- The field-by-field mapping from a raw team-data row to `TeamData`;
`vendorCost = caseCost / caseQuantity` is computed only when both are
JS-truthy (present and nonzero). -/
def teamDataOfRow (r : ItemDataRow) : TeamData :=
  { vendor := r.vendor
    vendorCost :=
      match r.caseCost, r.caseQuantity with
      | some cc, some cq => if cc ≠ 0 ∧ cq ≠ 0 then some (cc / cq) else none
      | _, _ => none
    caseUpc := r.caseUpc
    caseCost := r.caseCost
    caseQuantity := r.caseQuantity
    discontinued := r.discontinued
    notes := r.notes }

/-- `recoverTeamDataFromDynamoDB(itemId)`: one remote `getItemData` fetch;
on data, persist locally (environment write, outside the modelled state)
and cache; on no data or error, return `undefined`.  The third component
counts remote calls issued. -/
def recoverTeamDataFromDynamoDB (cache : TeamCache) (itemId : String) (now : Nat)
    (teamRemote : String → Option ItemDataRow) :
    Option TeamData × TeamCache × Nat :=
  match teamRemote itemId with
  | some row =>
    let td := teamDataOfRow row
    (some td, cacheSet cache itemId (td, now), 1)
  | none => (none, cache, 1)

/-- The cache-miss path of `fetchTeamData`: local db lookup first, remote
recovery only when the local store has no row. -/
def fetchTeamDataMiss (cache : TeamCache) (itemId : String) (now : Nat)
    (teamLocal teamRemote : String → Option ItemDataRow) :
    Option TeamData × TeamCache × Nat :=
  match teamLocal itemId with
  | some row =>
    let td := teamDataOfRow row
    (some td, cacheSet cache itemId (td, now), 0)
  | none => recoverTeamDataFromDynamoDB cache itemId now teamRemote

/-- `fetchTeamData(itemId)`: serve from cache when
`Date.now() - cached.timestamp < CACHE_DURATION`, otherwise fall through
to the local-first miss path. -/
def fetchTeamData (cache : TeamCache) (itemId : String) (now : Nat)
    (teamLocal teamRemote : String → Option ItemDataRow) :
    Option TeamData × TeamCache × Nat :=
  match cacheGet cache itemId with
  | some (d, ts) =>
    if now - ts < CACHE_DURATION then (some d, cache, 0)
    else fetchTeamDataMiss cache itemId now teamLocal teamRemote
  | none => fetchTeamDataMiss cache itemId now teamLocal teamRemote

/-- `loadTeamDataForItems()`: for each collection record in order, fetch
its team data (threading the cache) and attach it when found. -/
def loadTeamDataForItems (cache : TeamCache) (items : List ReorderItem) (now : Nat)
    (teamLocal teamRemote : String → Option ItemDataRow) :
    TeamCache × List ReorderItem :=
  match items with
  | [] => (cache, [])
  | it :: rest =>
    let step := fetchTeamData cache it.itemId now teamLocal teamRemote
    let it2 := match step.1 with
      | some td => { it with teamData := some td }
      | none => it
    let restRes := loadTeamDataForItems step.2.1 rest now teamLocal teamRemote
    (restRes.1, it2 :: restRes.2)

/-! ## Real-time change-feed handlers -/

/-- `handleReorderItemCreated(newItem)`: ignore when the id is already
present (echo of an own write); else append with a fresh display index and
broadcast. -/
def handleReorderItemCreated (s : ServiceState) (newItem : ReorderItem) : OpResult :=
  if (s.reorderItems.find? (fun i => i.id = newItem.id)).isSome then
    ⟨s, [], true⟩
  else
    let ri := { newItem with
        timestamp := some newItem.createdAt
        index := some (s.reorderItems.length + 1) }
    let items := s.reorderItems ++ [ri]
    ⟨{ s with reorderItems := items }, [items], true⟩

/-- `handleReorderItemUpdated(updatedItem)`: replace in place when
present, preserving the existing display index, and broadcast. -/
def handleReorderItemUpdated (s : ServiceState) (u : ReorderItem) : OpResult :=
  match findWithIdx (fun i => i.id = u.id) s.reorderItems with
  | some (idx, old) =>
    let items := replaceAt s.reorderItems idx
      { u with timestamp := some u.createdAt, index := old.index }
    ⟨{ s with reorderItems := items }, [items], true⟩
  | none => ⟨s, [], true⟩

/-- `handleReorderItemDeleted(deletedItem)`: filter out the id; when
something was removed, re-index densely and broadcast; otherwise no
broadcast. -/
def handleReorderItemDeleted (s : ServiceState) (deletedId : String) : OpResult :=
  let filtered := s.reorderItems.filter (fun i => i.id ≠ deletedId)
  if filtered.length < s.reorderItems.length then
    let items := reindex filtered
    ⟨{ s with reorderItems := items }, [items], true⟩
  else
    ⟨{ s with reorderItems := filtered }, [], true⟩

/-! ## Mutating operations -/

/-- The pending-queue append-or-replace step shared by the offline write
paths: replace the entry with the same id when present, else push a copy. -/
def pendingUpsert (pending : List ReorderItem) (it : ReorderItem) : List ReorderItem :=
  match findWithIdx (fun p => p.id = it.id) pending with
  | some (pidx, _) => replaceAt pending pidx it
  | none => pending ++ [it]

/-- The new offline record minted by `addItem` (id
`offline-${Date.now()}-${random}` passed in as `freshId`). -/
def mintOfflineItem (item : ConvertedItem) (quantity : Int) (teamData : Option TeamData)
    (addedBy : String) (now : Nat) (freshId : String) (len : Nat) : ReorderItem :=
  { id := freshId
    itemId := item.id
    itemName := jsOrOpt item.name "Unknown Item"
    itemBarcode := jsOrUndef item.barcode
    itemCategory := jsOrUndef item.category
    itemPrice := item.price
    quantity := quantity
    completed := false
    addedBy := addedBy
    createdAt := now
    updatedAt := now
    teamData := teamData
    timestamp := some now
    index := some (len + 1) }

/-- The local (offline) body of `addItem`, duplicated verbatim in the
source between the offline branch and the catch fallback (which differ
only in the `addedBy` default): update quantity and timestamp of an
existing record for the same source item (additive or overwrite), or mint
and append a new record; upsert the pending entry, persist the offline
snapshot, broadcast, and report success. -/
def addItemLocal (s : ServiceState) (item : ConvertedItem) (quantity : Int)
    (teamData : Option TeamData) (addedBy : String) (overwriteMode : Bool)
    (now : Nat) (freshId : String) : OpResult :=
  match findWithIdx (fun r => r.itemId = item.id) s.reorderItems with
  | some (idx, existingItem) =>
    let updated := { existingItem with
        quantity := if overwriteMode then quantity else existingItem.quantity + quantity
        updatedAt := now }
    let items := replaceAt s.reorderItems idx updated
    let pending := pendingUpsert s.pendingSyncItems updated
    ⟨{ s with reorderItems := items, pendingSyncItems := pending,
              offlineStorage := some items }, [items], true⟩
  | none =>
    let ni := mintOfflineItem item quantity teamData addedBy now freshId s.reorderItems.length
    let items := s.reorderItems ++ [ni]
    let pending := s.pendingSyncItems ++ [ni]
    ⟨{ s with reorderItems := items, pendingSyncItems := pending,
              offlineStorage := some items }, [items], true⟩

/-- `addItem(item, quantity, teamData?, addedBy, overwriteMode)`.  Online,
the existing-record branch issues an `updateReorderItem` mutation and the
new-record branch a `createReorderItem` mutation; neither touches the
in-memory collection (convergence is via the subscription echo).  A
thrown remote call flips the session to offline mode and reruns the local
body (with `addedBy || 'Unknown User'`). -/
def ReorderService.addItem (s : ServiceState) (item : ConvertedItem) (quantity : Int)
    (teamData : Option TeamData) (addedBy : String) (overwriteMode : Bool)
    (now : Nat) (freshId : String) (remote : RemoteResult) : OpResult :=
  if s.isOfflineMode then
    addItemLocal s item quantity teamData addedBy overwriteMode now freshId
  else
    match remote with
    | .ok => ⟨s, [], true⟩
    | .noData => ⟨s, [], false⟩
    | .err =>
      addItemLocal { s with isOfflineMode := true } item quantity teamData
        (jsOr addedBy "Unknown User") overwriteMode now freshId

/-- The custom record minted by `addCustomItem`
(`custom-${Date.now()}-${random}` passed in as `customId`). -/
def mintCustomItem (c : CustomItemInput) (now : Nat) (customId : String) (len : Nat) :
    ReorderItem :=
  { id := customId
    itemId := customId
    itemName := c.itemName
    itemBarcode := none
    itemCategory := some (jsOrOpt c.itemCategory "Custom")
    itemPrice := none
    quantity := c.quantity
    completed := false
    addedBy := c.addedBy
    createdAt := now
    updatedAt := now
    teamData :=
      match c.vendor with
      | some v => if v = "" then none else some { vendor := some v }
      | none => none
    timestamp := some now
    index := some (len + 1) }

/-- The local body of `addCustomItem`: unshift the new record, push it to
the pending queue, persist the offline snapshot, broadcast, succeed. -/
def addCustomItemLocal (s : ServiceState) (c : CustomItemInput) (now : Nat)
    (customId : String) : OpResult :=
  let ni := mintCustomItem c now customId s.reorderItems.length
  let items := ni :: s.reorderItems
  let pending := s.pendingSyncItems ++ [ni]
  ⟨{ s with reorderItems := items, pendingSyncItems := pending,
            offlineStorage := some items }, [items], true⟩

/-- `addCustomItem(fields)`: id always locally minted (a second id is
minted inside the catch fallback, `customIdErr`).  Online issues a
`createReorderItem` mutation without touching local state; a thrown call
flips to offline mode and commits locally. -/
def ReorderService.addCustomItem (s : ServiceState) (c : CustomItemInput) (now : Nat)
    (customId customIdErr : String) (remote : RemoteResult) : OpResult :=
  if s.isOfflineMode then
    addCustomItemLocal s c now customId
  else
    match remote with
    | .ok => ⟨s, [], true⟩
    | .noData => ⟨s, [], false⟩
    | .err => addCustomItemLocal { s with isOfflineMode := true } c now customIdErr

/-- The local body of `removeItem`: splice out the record when present,
drop any pending entry with the id, re-index densely, persist, broadcast. -/
def removeItemLocal (s : ServiceState) (itemId : String) : OpResult :=
  match findWithIdx (fun i => i.id = itemId) s.reorderItems with
  | some (idx, _) =>
    let items := reindex (eraseAt s.reorderItems idx)
    let pending := s.pendingSyncItems.filter (fun i => i.id ≠ itemId)
    ⟨{ s with reorderItems := items, pendingSyncItems := pending,
              offlineStorage := some items }, [items], true⟩
  | none => ⟨s, [], true⟩

/-- `removeItem(itemId)`: offline removes locally; online issues a
`deleteReorderItem` mutation only (local convergence via the delete
event); a thrown call flips to offline mode and removes locally. -/
def ReorderService.removeItem (s : ServiceState) (itemId : String)
    (remote : RemoteResult) : OpResult :=
  if s.isOfflineMode then
    removeItemLocal s itemId
  else
    match remote with
    | .ok => ⟨s, [], true⟩
    | .noData => ⟨s, [], true⟩
    | .err => removeItemLocal { s with isOfflineMode := true } itemId

/-- The local body of `toggleCompletion`: flip the flag, bump the
timestamp, upsert the pending entry, persist, broadcast.  (The best-effort
history-logging call is external and absorbed.) -/
def toggleCompletionLocal (s : ServiceState) (itemId : String) (now : Nat) : OpResult :=
  match findWithIdx (fun i => i.id = itemId) s.reorderItems with
  | some (idx, item) =>
    let updated := { item with completed := !item.completed, updatedAt := now }
    let items := replaceAt s.reorderItems idx updated
    let pending := pendingUpsert s.pendingSyncItems updated
    ⟨{ s with reorderItems := items, pendingSyncItems := pending,
              offlineStorage := some items }, [items], true⟩
  | none => ⟨s, [], true⟩

/-- `toggleCompletion(itemId, userName)`: no-op when the id is absent;
offline toggles locally; online issues an `updateReorderItem` mutation
only; a thrown call flips to offline mode and toggles locally. -/
def ReorderService.toggleCompletion (s : ServiceState) (itemId : String) (now : Nat)
    (remote : RemoteResult) : OpResult :=
  match findWithIdx (fun i => i.id = itemId) s.reorderItems with
  | none => ⟨s, [], true⟩
  | some _ =>
    if s.isOfflineMode then
      toggleCompletionLocal s itemId now
    else
      match remote with
      | .ok => ⟨s, [], true⟩
      | .noData => ⟨s, [], true⟩
      | .err => toggleCompletionLocal { s with isOfflineMode := true } itemId now

/-- `syncPendingItems()`: resubmit every pending entry as a creation
(`confirm it` says whether the remote call for that entry returned data),
collect the confirmed ids, and remove exactly the entries whose id was
confirmed; failed entries remain for the next flush. -/
def ReorderService.syncPendingItems (s : ServiceState)
    (confirm : ReorderItem → Bool) : ServiceState :=
  if s.pendingSyncItems.isEmpty then s
  else
    let syncedItems := (s.pendingSyncItems.filter confirm).map (fun i => i.id)
    { s with pendingSyncItems :=
        s.pendingSyncItems.filter (fun i => !(syncedItems.contains i.id)) }

/-- The sequence of remote `deleteReorderItem` calls `clear()` issues: one
per record in order, stopping after the first thrown call (the loop body
is inside one try/catch). -/
def clearRemoteCalls (items : List ReorderItem) (deleteFails : String → Bool) :
    List String :=
  match items with
  | [] => []
  | i :: rest =>
    if deleteFails i.id then [i.id]
    else i.id :: clearRemoteCalls rest deleteFails

/-- `clear()`: issues remote deletes (returned second) but never touches
`reorderItems`, `pendingSyncItems`, the offline snapshot, or the
listeners; a thrown delete is caught and only logged. -/
def ReorderService.clear (s : ServiceState) (deleteFails : String → Bool) :
    OpResult × List String :=
  (⟨s, [], true⟩, clearRemoteCalls s.reorderItems deleteFails)

/-- `getItems()`: a copy of the in-memory collection. -/
def ReorderService.getItems (s : ServiceState) : List ReorderItem :=
  s.reorderItems

/-! ## Load, init and refresh -/

/-- Environment of the load paths: the local `reorder_items` rows (already
row-mapped, with `pending_sync = 0`), the optional `listReorderItems`
response, the team-data stores and the clock. -/
structure LoadEnv where
  localRows : List ReorderItem
  remoteList : Option (List ReorderItem)
  teamLocal : String → Option ItemDataRow
  teamRemote : String → Option ItemDataRow
  now : Nat

/-- `recoverFromDynamoDB()`: bulk remote fetch; on data, persist locally,
adopt as the collection (with fresh timestamps/indices), enrich, and
broadcast; on no data or error, leave the state unchanged. -/
def ReorderService.recoverFromDynamoDB (s : ServiceState) (env : LoadEnv) :
    ServiceState × List (List ReorderItem) :=
  match env.remoteList with
  | some serverRaw =>
    let serverItems := mapWithIdx serverRaw 0
      (fun i r => { r with timestamp := some r.createdAt, index := some (i + 1) })
    let enriched := loadTeamDataForItems s.teamDataCache serverItems env.now
      env.teamLocal env.teamRemote
    ({ s with reorderItems := enriched.2, teamDataCache := enriched.1 }, [enriched.2])
  | none => (s, [])

/-- `loadReorderItems()`: local-first — adopt the local rows when any
exist (their row mapping sets `index: 0`) and enrich them; otherwise run
the one-time recovery. -/
def ReorderService.loadReorderItems (s : ServiceState) (env : LoadEnv) :
    ServiceState × List (List ReorderItem) :=
  if env.localRows.isEmpty then
    ReorderService.recoverFromDynamoDB s env
  else
    let localItems := env.localRows.map
      (fun r => { r with timestamp := some r.createdAt, index := some 0 })
    let enriched := loadTeamDataForItems s.teamDataCache localItems env.now
      env.teamLocal env.teamRemote
    ({ s with reorderItems := enriched.2, teamDataCache := enriched.1 }, [])

/-- `loadOfflineItems()`: adopt the offline snapshot when present,
normalizing timestamps and display indices. -/
def ReorderService.loadOfflineItems (s : ServiceState) : ServiceState :=
  match s.offlineStorage with
  | some stored =>
    { s with reorderItems := (mapWithIdx stored 0
        (fun i r => { r with timestamp := some r.createdAt, index := some (i + 1) })) }
  | none => s

/-- Environment of `initialize`/`refresh`: `auth` is the outcome of
`checkAuthStatus()` (which also sets the session mode). -/
structure InitEnv extends LoadEnv where
  auth : Bool

/-- `initialize(userId?)`: idempotent only when already initialized with
the same (defined) user (`null === undefined` is false in JS, so an
undefined `userId` never matches).  Reachable: load server-side (local
first) and subscribe; unreachable: load the offline snapshot.  Always ends
with a broadcast. -/
def ReorderService.initService (s : ServiceState) (userId : Option String)
    (env : InitEnv) : ServiceState × List (List ReorderItem) :=
  if s.isInit && userId.isSome && s.currentUserId == userId then (s, [])
  else
    let s1 := { s with currentUserId := userId }
    if env.auth then
      let s2 := { s1 with isOfflineMode := false }
      let loaded := ReorderService.loadReorderItems s2 env.toLoadEnv
      let s4 := { loaded.1 with isInit := true }
      (s4, loaded.2 ++ [s4.reorderItems])
    else
      let s2 := { s1 with isOfflineMode := true }
      let s3 := ReorderService.loadOfflineItems s2
      let s4 := { s3 with isInit := true }
      (s4, [s4.reorderItems])

/-- Environment of `refresh`: auth probe outcome plus per-entry flush
confirmations. -/
structure RefreshEnv extends LoadEnv where
  auth : Bool
  confirm : ReorderItem → Bool

/-- `refresh()`: online, flush the pending queue then reload canonical
data and broadcast; offline, reload the offline snapshot and broadcast. -/
def ReorderService.refresh (s : ServiceState) (env : RefreshEnv) :
    ServiceState × List (List ReorderItem) :=
  if env.auth then
    let s1 := { s with isOfflineMode := false }
    let s2 := ReorderService.syncPendingItems s1 env.confirm
    let loaded := ReorderService.loadReorderItems s2 env.toLoadEnv
    (loaded.1, loaded.2 ++ [loaded.1.reorderItems])
  else
    let s1 := { s with isOfflineMode := true }
    let s2 := ReorderService.loadOfflineItems s1
    (s2, [s2.reorderItems])

/-! ## Operation sequences -/

/-- One engine operation together with its environment (remote outcomes,
clock, minted ids, event payloads). -/
inductive EngineOp where
  | init (userId : Option String) (env : InitEnv)
  | doRefresh (env : RefreshEnv)
  | add (item : ConvertedItem) (quantity : Int) (teamData : Option TeamData)
      (addedBy : String) (overwriteMode : Bool) (now : Nat) (freshId : String)
      (remote : RemoteResult)
  | addCustom (c : CustomItemInput) (now : Nat) (customId customIdErr : String)
      (remote : RemoteResult)
  | remove (itemId : String) (remote : RemoteResult)
  | toggle (itemId : String) (now : Nat) (remote : RemoteResult)
  | flush (confirm : ReorderItem → Bool)
  | createdEvt (payload : ReorderItem)
  | updatedEvt (payload : ReorderItem)
  | deletedEvt (deletedId : String)

/-- State transition of one operation. -/
def applyOp (s : ServiceState) : EngineOp → ServiceState
  | .init userId env => (ReorderService.initService s userId env).1
  | .doRefresh env => (ReorderService.refresh s env).1
  | .add item q td ab ow now fid remote =>
      (ReorderService.addItem s item q td ab ow now fid remote).state
  | .addCustom c now id1 id2 remote =>
      (ReorderService.addCustomItem s c now id1 id2 remote).state
  | .remove itemId remote => (ReorderService.removeItem s itemId remote).state
  | .toggle itemId now remote =>
      (ReorderService.toggleCompletion s itemId now remote).state
  | .flush confirm => ReorderService.syncPendingItems s confirm
  | .createdEvt p => (handleReorderItemCreated s p).state
  | .updatedEvt p => (handleReorderItemUpdated s p).state
  | .deletedEvt d => (handleReorderItemDeleted s d).state

/-- Folding a whole operation sequence. -/
def applyOps (s : ServiceState) (ops : List EngineOp) : ServiceState :=
  ops.foldl applyOp s

/-- A locally minted id is fresh: it collides with no current record and
no pending entry (`Date.now()` plus a random 9-character suffix). -/
def freshFor (s : ServiceState) (id : String) : Prop :=
  id ∉ idsOf s.reorderItems ∧ id ∉ idsOf s.pendingSyncItems

/-- Environment assumptions of one operation: minted ids are fresh, and
bulk-loaded row sets (the local table is keyed by id, the remote store by
primary key) carry no duplicate id. -/
def OpOk (s : ServiceState) : EngineOp → Prop
  | .init _ env =>
      (idsOf env.localRows).Nodup ∧ ∀ l, env.remoteList = some l → (idsOf l).Nodup
  | .doRefresh env =>
      (idsOf env.localRows).Nodup ∧ ∀ l, env.remoteList = some l → (idsOf l).Nodup
  | .add _ _ _ _ _ _ freshId _ => freshFor s freshId
  | .addCustom _ _ id1 id2 _ => freshFor s id1 ∧ freshFor s id2
  | _ => True

/-- Environment assumptions along a whole sequence. -/
def OpsOk : ServiceState → List EngineOp → Prop
  | _, [] => True
  | s, op :: rest => OpOk s op ∧ OpsOk (applyOp s op) rest

/-- The engine invariant: no duplicate id in the in-memory collection, in
the pending queue, or in the persisted offline snapshot. -/
def Inv (s : ServiceState) : Prop :=
  (idsOf s.reorderItems).Nodup ∧ (idsOf s.pendingSyncItems).Nodup ∧
  ∀ l, s.offlineStorage = some l → (idsOf l).Nodup

/-- Number of collection records carrying a given id. -/
def countId (s : ServiceState) (x : String) : Nat :=
  (idsOf s.reorderItems).count x

/-- Display indices are the dense sequence `some 1, ..., some N`. -/
def DenseIdx (l : List ReorderItem) : Prop :=
  l.map (fun r => r.index) = (List.range' 1 l.length).map some

/-! ## Reference/aliasing model of listener snapshots

`notifyListeners()` hands each listener `[...this.reorderItems]`: a fresh
top-level array whose elements are the engine's own record objects.  To
settle what a listener mutation can reach, arrays and records are given
explicit heap addresses: `arrays` maps an array address to the record
addresses it holds, `records` maps a record address to its value, and the
engine's collection is the array at `collRef`. -/
structure EngineMem where
  arrays : Nat → List Nat
  records : Nat → ReorderItem
  collRef : Nat
  nextRef : Nat

/-- Allocated addresses are below the allocation cursor. -/
def EngineMem.wf (m : EngineMem) : Prop := m.collRef < m.nextRef

/-- `[...this.reorderItems]`: allocate a fresh array holding the same
record addresses as the collection, and hand its address to the listener. -/
def broadcastSnapshot (m : EngineMem) : EngineMem × Nat :=
  ({ m with
      arrays := fun a => if a = m.nextRef then m.arrays m.collRef else m.arrays a
      nextRef := m.nextRef + 1 }, m.nextRef)

/-- A listener mutating the array object at an address (push, splice,
assignment, ...). -/
def writeArray (m : EngineMem) (a : Nat) (v : List Nat) : EngineMem :=
  { m with arrays := fun x => if x = a then v else m.arrays x }

/-- A listener mutating the fields of the record object at an address. -/
def writeRecord (m : EngineMem) (r : Nat) (f : ReorderItem → ReorderItem) : EngineMem :=
  { m with records := fun x => if x = r then f (m.records x) else m.records x }

/-- The engine's view of its own collection. -/
def engineItemsView (m : EngineMem) : List ReorderItem :=
  (m.arrays m.collRef).map m.records

/-! ## Concrete example data (used to instantiate the theorems) -/

def exState0 : ServiceState := {}

def exItem : ConvertedItem := { id := "X", name := some "Widget", price := some 2 }

def exRecord : ReorderItem :=
  { id := "r1", itemId := "X", itemName := "Widget", quantity := 5, completed := false,
    addedBy := "u", createdAt := 10, updatedAt := 10, timestamp := some 10,
    index := some 1 }

def exRecordB : ReorderItem :=
  { id := "B", itemId := "Y", itemName := "Gadget", quantity := 2, completed := false,
    addedBy := "alice", createdAt := 50, updatedAt := 50 }

def exStateOnline : ServiceState := { reorderItems := [exRecord] }

def exStateOffline : ServiceState :=
  { reorderItems := [exRecord], pendingSyncItems := [exRecord], isOfflineMode := true }

def exOps : List EngineOp :=
  [ .add exItem 3 none "alice" false 100 "offline-1" .err,
    .createdEvt exRecordB, .createdEvt exRecordB,
    .toggle "B" 300 .ok,
    .deletedEvt "offline-1",
    .flush (fun i => i.completed) ]

def exStateTwoPending : ServiceState :=
  { pendingSyncItems := [exRecord, exRecordB], isOfflineMode := true }

def exStateTwoRecords : ServiceState :=
  { reorderItems := [exRecord, exRecordB], isOfflineMode := true }

def exCache : TeamCache := [("i1", { vendor := some "acme" }, 100)]

def exRow : ItemDataRow :=
  { vendor := some "bolt", caseCost := some 12, caseQuantity := some 4 }

def exTeamLocal : String → Option ItemDataRow :=
  fun id => if id = "i2" then some exRow else none

def exTeamRemote : String → Option ItemDataRow :=
  fun id => if id = "i3" then some exRow else none

def exMemRecord : ReorderItem :=
  { id := "m1", itemId := "mx", itemName := "W", quantity := 5, completed := false,
    addedBy := "u", createdAt := 1, updatedAt := 1 }

def exMem : EngineMem :=
  { arrays := fun a => if a = 0 then [0] else []
    records := fun _ => exMemRecord
    collRef := 0
    nextRef := 1 }

/-! ## Helper lemmas -/

theorem idsOf_append (l : List ReorderItem) (x : ReorderItem) :
    idsOf (l ++ [x]) = idsOf l ++ [x.id] := by
  simp [idsOf]

theorem idsOf_cons (x : ReorderItem) (l : List ReorderItem) :
    idsOf (x :: l) = x.id :: idsOf l := rfl

theorem findWithIdx_eq_none {p : α → Bool} {l : List α} :
    findWithIdx p l = none ↔ ∀ x ∈ l, p x = false := by
  induction l with
  | nil => simp [findWithIdx]
  | cons a as ih =>
    unfold findWithIdx
    by_cases h : p a
    · simp [h]
    · rw [if_neg h]
      constructor
      · intro hmap
        have hnone : findWithIdx p as = none := by
          cases hfa : findWithIdx p as with
          | none => rfl
          | some q => rw [hfa] at hmap; simp at hmap
        intro x hx
        rcases List.mem_cons.mp hx with rfl | hx
        · exact Bool.eq_false_iff.mpr h
        · exact (ih.mp hnone) x hx
      · intro hall
        have hnone : findWithIdx p as =
            none := ih.mpr (fun x hx => hall x (List.mem_cons_of_mem a hx))
        rw [hnone]
        rfl

theorem findWithIdx_some_prop {p : α → Bool} {l : List α} {i : Nat} {x : α}
    (h : findWithIdx p l = some (i, x)) : p x = true := by
  induction l generalizing i with
  | nil => simp [findWithIdx] at h
  | cons a as ih =>
    unfold findWithIdx at h
    by_cases ha : p a
    · rw [if_pos ha] at h
      simp at h
      rw [← h.2]
      exact ha
    · rw [if_neg ha] at h
      cases hfa : findWithIdx p as with
      | none => rw [hfa] at h; simp at h
      | some q =>
        obtain ⟨qi, qx⟩ := q
        rw [hfa] at h
        simp at h
        obtain ⟨hi, hx⟩ := h
        subst hx
        exact ih hfa

theorem findWithIdx_some_lt {p : α → Bool} {l : List α} {i : Nat} {x : α}
    (h : findWithIdx p l = some (i, x)) : i < l.length := by
  induction l generalizing i with
  | nil => simp [findWithIdx] at h
  | cons a as ih =>
    unfold findWithIdx at h
    by_cases ha : p a
    · rw [if_pos ha] at h
      simp at h
      simp [← h.1]
    · rw [if_neg ha] at h
      cases hfa : findWithIdx p as with
      | none => rw [hfa] at h; simp at h
      | some q =>
        obtain ⟨qi, qx⟩ := q
        rw [hfa] at h
        simp at h
        obtain ⟨hi, hx⟩ := h
        subst hx
        have := ih hfa
        simp
        omega

theorem findWithIdx_some_mem {p : α → Bool} {l : List α} {i : Nat} {x : α}
    (h : findWithIdx p l = some (i, x)) : x ∈ l := by
  induction l generalizing i with
  | nil => simp [findWithIdx] at h
  | cons a as ih =>
    unfold findWithIdx at h
    by_cases ha : p a
    · rw [if_pos ha] at h
      simp at h
      simp [h.2]
    · rw [if_neg ha] at h
      cases hfa : findWithIdx p as with
      | none => rw [hfa] at h; simp at h
      | some q =>
        obtain ⟨qi, qx⟩ := q
        rw [hfa] at h
        simp at h
        obtain ⟨hi, hx⟩ := h
        subst hx
        exact List.mem_cons_of_mem a (ih hfa)

theorem map_replaceAt_found {p : α → Bool} {l : List α} {i : Nat} {x : α}
    (h : findWithIdx p l = some (i, x)) (f : α → β) (y : α) (hy : f y = f x) :
    (replaceAt l i y).map f = l.map f := by
  induction l generalizing i with
  | nil => simp [findWithIdx] at h
  | cons a as ih =>
    unfold findWithIdx at h
    by_cases ha : p a
    · rw [if_pos ha] at h
      simp at h
      obtain ⟨hi, hx⟩ := h
      subst hx
      rw [← hi]
      simp [replaceAt, hy]
    · rw [if_neg ha] at h
      cases hfa : findWithIdx p as with
      | none => rw [hfa] at h; simp at h
      | some q =>
        obtain ⟨qi, qx⟩ := q
        rw [hfa] at h
        simp at h
        obtain ⟨hi, hx⟩ := h
        subst hx
        rw [← hi]
        simp [replaceAt]
        exact ih hfa

theorem replaceAt_getElem {l : List α} {i : Nat} (h : i < l.length) (y : α) :
    (replaceAt l i y)[i]? = some y := by
  induction l generalizing i with
  | nil => simp at h
  | cons a as ih =>
    cases i with
    | zero => simp [replaceAt]
    | succ n => simpa [replaceAt] using ih (by simpa using h)

theorem eraseAt_sublist (l : List α) (i : Nat) : (eraseAt l i).Sublist l := by
  induction l generalizing i with
  | nil => simp [eraseAt]
  | cons a as ih =>
    cases i with
    | zero => exact (List.sublist_cons_self a as)
    | succ n => exact (ih n).cons₂ a

theorem idsOf_reindexFrom (l : List ReorderItem) (n : Nat) :
    idsOf (reindexFrom l n) = idsOf l := by
  induction l generalizing n with
  | nil => rfl
  | cons a as ih => simp [reindexFrom, idsOf_cons, ih]

theorem idsOf_reindex (l : List ReorderItem) : idsOf (reindex l) = idsOf l :=
  idsOf_reindexFrom l 0

theorem length_reindexFrom (l : List ReorderItem) (n : Nat) :
    (reindexFrom l n).length = l.length := by
  induction l generalizing n with
  | nil => rfl
  | cons a as ih => simp [reindexFrom, ih]

theorem map_index_reindexFrom (l : List ReorderItem) (n : Nat) :
    (reindexFrom l n).map (fun r => r.index) =
      (List.range' (n + 1) l.length).map some := by
  induction l generalizing n with
  | nil => rfl
  | cons a as ih => simp [reindexFrom, List.range'_succ, ih]

theorem denseIdx_reindex (l : List ReorderItem) : DenseIdx (reindex l) := by
  unfold DenseIdx reindex
  rw [map_index_reindexFrom, length_reindexFrom]

theorem map_mapWithIdx (l : List α) (n : Nat) (f : Nat → α → α) (g : α → β)
    (hf : ∀ i x, g (f i x) = g x) :
    (mapWithIdx l n f).map g = l.map g := by
  induction l generalizing n with
  | nil => rfl
  | cons a as ih => simp [mapWithIdx, hf, ih]

theorem idsOf_loadTeamDataForItems (cache : TeamCache) (items : List ReorderItem)
    (now : Nat) (tl tr : String → Option ItemDataRow) :
    idsOf (loadTeamDataForItems cache items now tl tr).2 = idsOf items := by
  induction items generalizing cache with
  | nil => rfl
  | cons a as ih =>
    simp only [loadTeamDataForItems]
    cases h : (fetchTeamData cache a.itemId now tl tr).1 <;>
      simp [idsOf_cons, h, ih]

theorem nodup_append_singleton {l : List String} {a : String}
    (hl : l.Nodup) (ha : a ∉ l) : (l ++ [a]).Nodup := by
  simp [List.nodup_append, hl, ha]

theorem pendingUpsert_of_not_mem {p : List ReorderItem} {it : ReorderItem}
    (h : it.id ∉ idsOf p) : pendingUpsert p it = p ++ [it] := by
  unfold pendingUpsert
  have hnone : findWithIdx (fun q => q.id = it.id) p = none := by
    rw [findWithIdx_eq_none]
    intro x hx
    simp only [decide_eq_false_iff_not]
    intro hxy
    exact h (by simp only [idsOf, List.mem_map]; exact ⟨x, hx, hxy⟩)
  rw [hnone]

theorem idsOf_pendingUpsert_of_mem {p : List ReorderItem} {it : ReorderItem}
    (h : it.id ∈ idsOf p) : idsOf (pendingUpsert p it) = idsOf p := by
  unfold pendingUpsert
  cases hf : findWithIdx (fun q => q.id = it.id) p with
  | none =>
    exfalso
    rw [findWithIdx_eq_none] at hf
    obtain ⟨x, hx, hxid⟩ := (by simpa only [idsOf, List.mem_map] using h :
      ∃ x ∈ p, x.id = it.id)
    have := hf x hx
    simp [hxid] at this
  | some q =>
    obtain ⟨qi, qx⟩ := q
    have hq := findWithIdx_some_prop hf
    simp only [decide_eq_true_eq] at hq
    exact map_replaceAt_found hf (fun r => r.id) it hq.symm

theorem nodup_pendingUpsert {p : List ReorderItem} {it : ReorderItem}
    (h : (idsOf p).Nodup) : (idsOf (pendingUpsert p it)).Nodup := by
  by_cases hm : it.id ∈ idsOf p
  · rw [idsOf_pendingUpsert_of_mem hm]
    exact h
  · rw [pendingUpsert_of_not_mem hm, idsOf_append]
    exact nodup_append_singleton h hm

theorem nodup_idsOf_filter {l : List ReorderItem} (h : (idsOf l).Nodup)
    (q : ReorderItem → Bool) : (idsOf (l.filter q)).Nodup :=
  List.Nodup.sublist ((l.filter_sublist).map _) h

theorem nodup_idsOf_eraseAt {l : List ReorderItem} (h : (idsOf l).Nodup) (i : Nat) :
    (idsOf (eraseAt l i)).Nodup :=
  List.Nodup.sublist ((eraseAt_sublist l i).map _) h

/-! ## Invariant preservation, operation by operation -/

theorem inv_addItemLocal {s : ServiceState} (item : ConvertedItem) (q : Int)
    (td : Option TeamData) (ab : String) (ow : Bool) (now : Nat) (fid : String)
    (hInv : Inv s) (hfresh : freshFor s fid) :
    Inv (addItemLocal s item q td ab ow now fid).state := by
  obtain ⟨h1, h2, h3⟩ := hInv
  unfold addItemLocal
  cases hf : findWithIdx (fun r => r.itemId = item.id) s.reorderItems with
  | some q2 =>
    obtain ⟨idx, ex⟩ := q2
    have hnodup : (idsOf (replaceAt s.reorderItems idx
        { ex with quantity := if ow then q else ex.quantity + q,
                  updatedAt := now })).Nodup := by
      have e : idsOf (replaceAt s.reorderItems idx
          { ex with quantity := if ow then q else ex.quantity + q, updatedAt := now }) =
          idsOf s.reorderItems :=
        map_replaceAt_found hf (fun r => r.id)
          { ex with quantity := if ow then q else ex.quantity + q, updatedAt := now } rfl
      rw [e]
      exact h1
    exact ⟨hnodup, nodup_pendingUpsert h2, fun l hl => (Option.some.inj hl) ▸ hnodup⟩
  | none =>
    have hnodup : (idsOf (s.reorderItems ++
        [mintOfflineItem item q td ab now fid s.reorderItems.length])).Nodup := by
      rw [idsOf_append]
      exact nodup_append_singleton h1 hfresh.1
    have hp : (idsOf (s.pendingSyncItems ++
        [mintOfflineItem item q td ab now fid s.reorderItems.length])).Nodup := by
      rw [idsOf_append]
      exact nodup_append_singleton h2 hfresh.2
    exact ⟨hnodup, hp, fun l hl => (Option.some.inj hl) ▸ hnodup⟩

theorem inv_addCustomItemLocal {s : ServiceState} (c : CustomItemInput) (now : Nat)
    (cid : String) (hInv : Inv s) (hfresh : freshFor s cid) :
    Inv (addCustomItemLocal s c now cid).state := by
  obtain ⟨h1, h2, h3⟩ := hInv
  refine ⟨?_, ?_, ?_⟩
  · rw [addCustomItemLocal, idsOf_cons]
    exact List.nodup_cons.mpr ⟨hfresh.1, h1⟩
  · rw [addCustomItemLocal, idsOf_append]
    exact nodup_append_singleton h2 hfresh.2
  · intro l hl
    simp only [addCustomItemLocal, Option.some.injEq] at hl
    rw [← hl, idsOf_cons]
    exact List.nodup_cons.mpr ⟨hfresh.1, h1⟩

theorem inv_removeItemLocal {s : ServiceState} (itemId : String) (hInv : Inv s) :
    Inv (removeItemLocal s itemId).state := by
  obtain ⟨h1, h2, h3⟩ := hInv
  unfold removeItemLocal
  cases hf : findWithIdx (fun i => i.id = itemId) s.reorderItems with
  | some q2 =>
    obtain ⟨idx, ex⟩ := q2
    have hids : (idsOf (reindex (eraseAt s.reorderItems idx))).Nodup := by
      rw [idsOf_reindex]
      exact nodup_idsOf_eraseAt h1 idx
    exact ⟨hids, nodup_idsOf_filter h2 _, by
      intro l hl
      simp only [Option.some.injEq] at hl
      rw [← hl]
      exact hids⟩
  | none => exact ⟨h1, h2, h3⟩

theorem inv_toggleCompletionLocal {s : ServiceState} (itemId : String) (now : Nat)
    (hInv : Inv s) : Inv (toggleCompletionLocal s itemId now).state := by
  obtain ⟨h1, h2, h3⟩ := hInv
  unfold toggleCompletionLocal
  cases hf : findWithIdx (fun i => i.id = itemId) s.reorderItems with
  | some q2 =>
    obtain ⟨idx, ex⟩ := q2
    have hnodup : (idsOf (replaceAt s.reorderItems idx
        { ex with completed := !ex.completed, updatedAt := now })).Nodup := by
      have e : idsOf (replaceAt s.reorderItems idx
          { ex with completed := !ex.completed, updatedAt := now }) =
          idsOf s.reorderItems :=
        map_replaceAt_found hf (fun r => r.id)
          { ex with completed := !ex.completed, updatedAt := now } rfl
      rw [e]
      exact h1
    exact ⟨hnodup, nodup_pendingUpsert h2, fun l hl => (Option.some.inj hl) ▸ hnodup⟩
  | none => exact ⟨h1, h2, h3⟩

theorem inv_syncPendingItems {s : ServiceState} (confirm : ReorderItem → Bool)
    (hInv : Inv s) : Inv (ReorderService.syncPendingItems s confirm) := by
  obtain ⟨h1, h2, h3⟩ := hInv
  unfold ReorderService.syncPendingItems
  by_cases he : s.pendingSyncItems.isEmpty
  · rw [if_pos he]
    exact ⟨h1, h2, h3⟩
  · rw [if_neg he]
    exact ⟨h1, nodup_idsOf_filter h2 _, h3⟩

theorem inv_handleCreated {s : ServiceState} (p : ReorderItem) (hInv : Inv s) :
    Inv (handleReorderItemCreated s p).state := by
  obtain ⟨h1, h2, h3⟩ := hInv
  unfold handleReorderItemCreated
  by_cases he : (s.reorderItems.find? (fun i => i.id = p.id)).isSome
  · rw [if_pos he]
    exact ⟨h1, h2, h3⟩
  · rw [if_neg he]
    have habs : p.id ∉ idsOf s.reorderItems := by
      rw [Option.not_isSome_iff_eq_none, List.find?_eq_none] at he
      simp only [idsOf, List.mem_map]
      rintro ⟨x, hx, hxid⟩
      have := he x hx
      simp [hxid] at this
    refine ⟨?_, h2, h3⟩
    rw [idsOf_append]
    exact nodup_append_singleton h1 habs

theorem inv_handleUpdated {s : ServiceState} (u : ReorderItem) (hInv : Inv s) :
    Inv (handleReorderItemUpdated s u).state := by
  obtain ⟨h1, h2, h3⟩ := hInv
  unfold handleReorderItemUpdated
  cases hf : findWithIdx (fun i => i.id = u.id) s.reorderItems with
  | some q2 =>
    obtain ⟨idx, old⟩ := q2
    have hold := findWithIdx_some_prop hf
    simp only [decide_eq_true_eq] at hold
    have hnodup : (idsOf (replaceAt s.reorderItems idx
        { u with timestamp := some u.createdAt, index := old.index })).Nodup := by
      have e : idsOf (replaceAt s.reorderItems idx
          { u with timestamp := some u.createdAt, index := old.index }) =
          idsOf s.reorderItems :=
        map_replaceAt_found hf (fun r => r.id)
          { u with timestamp := some u.createdAt, index := old.index } hold.symm
      rw [e]
      exact h1
    exact ⟨hnodup, h2, h3⟩
  | none => exact ⟨h1, h2, h3⟩

theorem inv_handleDeleted {s : ServiceState} (d : String) (hInv : Inv s) :
    Inv (handleReorderItemDeleted s d).state := by
  obtain ⟨h1, h2, h3⟩ := hInv
  unfold handleReorderItemDeleted
  by_cases hlen : (s.reorderItems.filter (fun i => i.id ≠ d)).length <
      s.reorderItems.length
  · rw [if_pos hlen]
    refine ⟨?_, h2, h3⟩
    rw [idsOf_reindex]
    exact nodup_idsOf_filter h1 _
  · rw [if_neg hlen]
    exact ⟨nodup_idsOf_filter h1 _, h2, h3⟩

theorem inv_loadOfflineItems {s : ServiceState} (hInv : Inv s) :
    Inv (ReorderService.loadOfflineItems s) := by
  obtain ⟨h1, h2, h3⟩ := hInv
  unfold ReorderService.loadOfflineItems
  split
  · rename_i stored hst
    have hnodup : (idsOf (mapWithIdx stored 0 (fun i r =>
        { r with timestamp := some r.createdAt, index := some (i + 1) }))).Nodup := by
      have e : idsOf (mapWithIdx stored 0 (fun i r =>
          { r with timestamp := some r.createdAt, index := some (i + 1) })) =
          idsOf stored :=
        map_mapWithIdx stored 0
          (fun i r => { r with timestamp := some r.createdAt, index := some (i + 1) })
          (fun r => r.id) (fun i x => rfl)
      rw [e]
      exact h3 stored hst
    exact ⟨hnodup, h2, fun l hl => h3 l hl⟩
  · exact ⟨h1, h2, fun l hl => h3 l hl⟩

theorem inv_loadReorderItems {s : ServiceState} (env : LoadEnv) (hInv : Inv s)
    (hrows : (idsOf env.localRows).Nodup)
    (hremote : ∀ l, env.remoteList = some l → (idsOf l).Nodup) :
    Inv (ReorderService.loadReorderItems s env).1 := by
  obtain ⟨h1, h2, h3⟩ := hInv
  unfold ReorderService.loadReorderItems ReorderService.recoverFromDynamoDB
  split
  · split
    · rename_i serverRaw hrl
      have hnodup : (idsOf (loadTeamDataForItems s.teamDataCache
          (mapWithIdx serverRaw 0 (fun i r =>
            { r with timestamp := some r.createdAt, index := some (i + 1) }))
          env.now env.teamLocal env.teamRemote).2).Nodup := by
        rw [idsOf_loadTeamDataForItems]
        have e : idsOf (mapWithIdx serverRaw 0 (fun i r =>
            { r with timestamp := some r.createdAt, index := some (i + 1) })) =
            idsOf serverRaw :=
          map_mapWithIdx serverRaw 0
            (fun i r => { r with timestamp := some r.createdAt, index := some (i + 1) })
            (fun r => r.id) (fun i x => rfl)
        rw [e]
        exact hremote serverRaw hrl
      exact ⟨hnodup, h2, h3⟩
    · exact ⟨h1, h2, h3⟩
  · have hnodup : (idsOf (loadTeamDataForItems s.teamDataCache
        (env.localRows.map (fun r =>
          { r with timestamp := some r.createdAt, index := some 0 }))
        env.now env.teamLocal env.teamRemote).2).Nodup := by
      rw [idsOf_loadTeamDataForItems]
      have e : idsOf (env.localRows.map (fun r =>
          { r with timestamp := some r.createdAt, index := some 0 })) =
          idsOf env.localRows := by
        simp only [idsOf, List.map_map]
        rfl
      rw [e]
      exact hrows
    exact ⟨hnodup, h2, h3⟩

theorem inv_initService {s : ServiceState} (userId : Option String) (env : InitEnv)
    (hInv : Inv s) (hrows : (idsOf env.localRows).Nodup)
    (hremote : ∀ l, env.remoteList = some l → (idsOf l).Nodup) :
    Inv (ReorderService.initService s userId env).1 := by
  obtain ⟨le, auth⟩ := env
  unfold ReorderService.initService
  by_cases hg : (s.isInit && userId.isSome && s.currentUserId == userId) = true
  · rw [if_pos hg]
    exact hInv
  · rw [if_neg hg]
    cases auth with
    | true => exact inv_loadReorderItems le hInv hrows hremote
    | false => exact inv_loadOfflineItems hInv

theorem inv_refresh {s : ServiceState} (env : RefreshEnv) (hInv : Inv s)
    (hrows : (idsOf env.localRows).Nodup)
    (hremote : ∀ l, env.remoteList = some l → (idsOf l).Nodup) :
    Inv (ReorderService.refresh s env).1 := by
  obtain ⟨le, auth, confirm⟩ := env
  unfold ReorderService.refresh
  cases auth with
  | true => exact inv_loadReorderItems le (inv_syncPendingItems confirm hInv) hrows hremote
  | false => exact inv_loadOfflineItems hInv

theorem inv_applyOp {s : ServiceState} (op : EngineOp) (hInv : Inv s)
    (hok : OpOk s op) : Inv (applyOp s op) := by
  cases op with
  | init userId env => exact inv_initService userId env hInv hok.1 hok.2
  | doRefresh env => exact inv_refresh env hInv hok.1 hok.2
  | add item q td ab ow now fid remote =>
    show Inv (ReorderService.addItem s item q td ab ow now fid remote).state
    unfold ReorderService.addItem
    by_cases ho : s.isOfflineMode = true
    · rw [if_pos ho]
      exact inv_addItemLocal item q td ab ow now fid hInv hok
    · rw [if_neg ho]
      cases remote with
      | ok => exact hInv
      | noData => exact hInv
      | err => exact inv_addItemLocal item q td (jsOr ab "Unknown User") ow now fid hInv hok
  | addCustom c now id1 id2 remote =>
    show Inv (ReorderService.addCustomItem s c now id1 id2 remote).state
    unfold ReorderService.addCustomItem
    by_cases ho : s.isOfflineMode = true
    · rw [if_pos ho]
      exact inv_addCustomItemLocal c now id1 hInv hok.1
    · rw [if_neg ho]
      cases remote with
      | ok => exact hInv
      | noData => exact hInv
      | err => exact inv_addCustomItemLocal c now id2 hInv hok.2
  | remove itemId remote =>
    show Inv (ReorderService.removeItem s itemId remote).state
    unfold ReorderService.removeItem
    by_cases ho : s.isOfflineMode = true
    · rw [if_pos ho]
      exact inv_removeItemLocal itemId hInv
    · rw [if_neg ho]
      cases remote with
      | ok => exact hInv
      | noData => exact hInv
      | err => exact inv_removeItemLocal itemId hInv
  | toggle itemId now remote =>
    show Inv (ReorderService.toggleCompletion s itemId now remote).state
    unfold ReorderService.toggleCompletion
    split
    · exact hInv
    · by_cases ho : s.isOfflineMode = true
      · rw [if_pos ho]
        exact inv_toggleCompletionLocal itemId now hInv
      · rw [if_neg ho]
        cases remote with
        | ok => exact hInv
        | noData => exact hInv
        | err => exact inv_toggleCompletionLocal itemId now hInv
  | flush confirm => exact inv_syncPendingItems confirm hInv
  | createdEvt p => exact inv_handleCreated p hInv
  | updatedEvt p => exact inv_handleUpdated p hInv
  | deletedEvt d => exact inv_handleDeleted d hInv

theorem inv_applyOps {s : ServiceState} (ops : List EngineOp) (hInv : Inv s)
    (hok : OpsOk s ops) : Inv (applyOps s ops) := by
  induction ops generalizing s with
  | nil => exact hInv
  | cons op rest ih => exact ih (inv_applyOp op hInv hok.1) hok.2

/-! ## Further helper lemmas for the claims -/

theorem findWithIdx_isSome_of_mem {l : List ReorderItem} {itemId : String}
    (h : itemId ∈ idsOf l) :
    ∃ q, findWithIdx (fun i => i.id = itemId) l = some q := by
  cases hf : findWithIdx (fun i => i.id = itemId) l with
  | some q => exact ⟨q, rfl⟩
  | none =>
    exfalso
    rw [findWithIdx_eq_none] at hf
    obtain ⟨x, hx, hxid⟩ := List.mem_map.mp h
    have := hf x hx
    simp [hxid] at this

theorem length_filter_lt {p : α → Bool} {l : List α} {x : α}
    (hx : x ∈ l) (hpx : p x = false) : (l.filter p).length < l.length := by
  induction l with
  | nil => simp at hx
  | cons a as ih =>
    rw [List.filter_cons]
    rcases List.mem_cons.mp hx with rfl | hmem
    · rw [hpx]
      have := List.length_filter_le p as
      simp
      omega
    · by_cases hpa : p a = true
      · rw [hpa]
        have := ih hmem
        simp
        omega
      · rw [Bool.eq_false_iff.mpr hpa]
        have := List.length_filter_le p as
        simp
        omega

theorem countId_handleCreated {t : ServiceState} (p : ReorderItem)
    (ht : (idsOf t.reorderItems).Nodup) :
    countId (handleReorderItemCreated t p).state p.id = 1 := by
  unfold countId handleReorderItemCreated
  by_cases hex : (t.reorderItems.find? (fun i => i.id = p.id)).isSome = true
  · rw [if_pos hex]
    rw [List.find?_isSome] at hex
    obtain ⟨x, hmem, hpx⟩ := hex
    simp only [decide_eq_true_eq] at hpx
    exact List.count_eq_one_of_mem ht (List.mem_map.mpr ⟨x, hmem, hpx⟩)
  · rw [if_neg hex]
    have habs : p.id ∉ idsOf t.reorderItems := by
      intro hmem
      obtain ⟨x, hx, hxid⟩ := List.mem_map.mp hmem
      exact hex (List.find?_isSome.mpr ⟨x, hx, by simp [hxid]⟩)
    have key : ∀ (ri : ReorderItem), ri.id = p.id →
        (idsOf (t.reorderItems ++ [ri])).count p.id = 1 := by
      intro ri hri
      rw [idsOf_append, List.count_append, List.count_eq_zero.mpr habs, hri]
      simp
    exact key _ rfl

theorem addItemLocal_ret (s : ServiceState) (item : ConvertedItem) (q : Int)
    (td : Option TeamData) (ab : String) (ow : Bool) (now : Nat) (fid : String) :
    (addItemLocal s item q td ab ow now fid).ret = true := by
  unfold addItemLocal
  cases hf : findWithIdx (fun r => r.itemId = item.id) s.reorderItems with
  | some q2 =>
    obtain ⟨i, x⟩ := q2
    rfl
  | none => rfl

theorem addItemLocal_keeps_mode (s : ServiceState) (item : ConvertedItem) (q : Int)
    (td : Option TeamData) (ab : String) (ow : Bool) (now : Nat) (fid : String) :
    (addItemLocal s item q td ab ow now fid).state.isOfflineMode = s.isOfflineMode := by
  unfold addItemLocal
  cases hf : findWithIdx (fun r => r.itemId = item.id) s.reorderItems with
  | some q2 =>
    obtain ⟨i, x⟩ := q2
    rfl
  | none => rfl

theorem addItemLocal_found_getElem {s : ServiceState} {item : ConvertedItem} {q : Int}
    {td : Option TeamData} {ab : String} {ow : Bool} {now : Nat} {fid : String}
    {idx : Nat} {ex : ReorderItem}
    (hf : findWithIdx (fun r => r.itemId = item.id) s.reorderItems = some (idx, ex)) :
    (addItemLocal s item q td ab ow now fid).state.reorderItems[idx]? =
      some { ex with quantity := if ow then q else ex.quantity + q, updatedAt := now } := by
  unfold addItemLocal
  rw [hf]
  exact replaceAt_getElem (findWithIdx_some_lt hf) _

theorem denseIdx_removeItemLocal {s : ServiceState} {itemId : String}
    (h : itemId ∈ idsOf s.reorderItems) :
    DenseIdx (removeItemLocal s itemId).state.reorderItems := by
  obtain ⟨q, hq⟩ := findWithIdx_isSome_of_mem h
  obtain ⟨i, x⟩ := q
  unfold removeItemLocal
  rw [hq]
  exact denseIdx_reindex _

theorem syncPendingItems_filter_confirm {s : ServiceState}
    (h2 : (idsOf s.pendingSyncItems).Nodup) (confirm : ReorderItem → Bool) :
    (ReorderService.syncPendingItems s confirm).pendingSyncItems =
      s.pendingSyncItems.filter (fun i => !confirm i) := by
  unfold ReorderService.syncPendingItems
  by_cases he : s.pendingSyncItems.isEmpty
  · rw [if_pos he]
    rw [List.isEmpty_iff] at he
    rw [he]
    rfl
  · rw [if_neg he]
    show s.pendingSyncItems.filter _ = s.pendingSyncItems.filter _
    apply List.filter_congr
    intro x hx
    have hc : ((s.pendingSyncItems.filter confirm).map
        (fun i => i.id)).contains x.id = confirm x := by
      cases hcx : confirm x with
      | true =>
        have hxf : x ∈ s.pendingSyncItems.filter confirm :=
          List.mem_filter.mpr ⟨hx, hcx⟩
        exact List.elem_iff.mpr (List.mem_map.mpr ⟨x, hxf, rfl⟩)
      | false =>
        apply Bool.eq_false_iff.mpr
        intro hcontains
        have hmem : x.id ∈ (s.pendingSyncItems.filter confirm).map (fun i => i.id) :=
          List.elem_iff.mp hcontains
        obtain ⟨y, hyf, hyid⟩ := List.mem_map.mp hmem
        obtain ⟨hyp, hcy⟩ := List.mem_filter.mp hyf
        have hxy : y = x := List.inj_on_of_nodup_map h2 hyp hx hyid
        rw [hxy] at hcy
        rw [hcy] at hcx
        exact Bool.noConfusion hcx
    rw [hc]

theorem removeItemLocal_pending (s : ServiceState) (itemId : String) :
    (removeItemLocal s itemId).state.pendingSyncItems =
      if itemId ∈ idsOf s.reorderItems
      then s.pendingSyncItems.filter (fun i => i.id ≠ itemId)
      else s.pendingSyncItems := by
  unfold removeItemLocal
  by_cases hm : itemId ∈ idsOf s.reorderItems
  · obtain ⟨q, hq⟩ := findWithIdx_isSome_of_mem hm
    obtain ⟨i, x⟩ := q
    rw [hq, if_pos hm]
  · have hnone : findWithIdx (fun i => i.id = itemId) s.reorderItems = none := by
      rw [findWithIdx_eq_none]
      intro x hx
      simp only [decide_eq_false_iff_not]
      intro hxi
      exact hm (List.mem_map.mpr ⟨x, hx, hxi⟩)
    rw [hnone, if_neg hm]

/-! ## Claim theorems -/

/-- **C1**: across every sequence of engine operations (initialize, refresh,
addItem, addCustomItem, removeItem, toggleCompletion, pending-queue flush,
and the real-time created/updated/deleted handlers), the in-memory
collection never holds two records with the same identifier; in
particular, after two remote created events carrying the same id exactly
one record with that id is present. -/
theorem claim1_collection_ids_unique :
    (∀ (s : ServiceState) (ops : List EngineOp), Inv s → OpsOk s ops →
        (idsOf (applyOps s ops).reorderItems).Nodup) ∧
    (∀ (s : ServiceState) (p : ReorderItem), Inv s →
        countId (applyOp (applyOp s (.createdEvt p)) (.createdEvt p)) p.id = 1) := by
  constructor
  · intro s ops hInv hok
    exact (inv_applyOps ops hInv hok).1
  · intro s p hInv
    have h1 : Inv (applyOp s (.createdEvt p)) := inv_applyOp _ hInv trivial
    exact countId_handleCreated p h1.1

/-- Witness for C1: a concrete six-operation run (offline fallback add,
duplicate created events, toggle, delete event, flush) keeps identifiers
unique, and the duplicate created event leaves exactly one `"B"` record. -/
theorem claim1_collection_ids_unique_witness :
    (idsOf (applyOps exState0 exOps).reorderItems).Nodup ∧
    countId (applyOp (applyOp exState0 (.createdEvt exRecordB))
      (.createdEvt exRecordB)) exRecordB.id = 1 := by
  have hInv : Inv exState0 :=
    ⟨List.nodup_nil, List.nodup_nil, fun l hl => Option.noConfusion hl⟩
  refine ⟨claim1_collection_ids_unique.1 exState0 exOps hInv ?_,
    claim1_collection_ids_unique.2 exState0 exRecordB hInv⟩
  exact ⟨(⟨by decide, by decide⟩ : freshFor exState0 "offline-1"), trivial, trivial, trivial,
    trivial, trivial, trivial⟩

/-- **C4**: the pending mutation queue keeps at most one entry per id: a
later offline mutation replaces, never duplicates, an existing pending
entry for the same id (append-or-replace), and the no-duplicate property
is an invariant of every operation sequence. -/
theorem claim4_pending_one_entry_per_id :
    (∀ (s : ServiceState) (ops : List EngineOp), Inv s → OpsOk s ops →
        (idsOf (applyOps s ops).pendingSyncItems).Nodup) ∧
    (∀ (pending : List ReorderItem) (it : ReorderItem), it.id ∈ idsOf pending →
        idsOf (pendingUpsert pending it) = idsOf pending) := by
  constructor
  · intro s ops hInv hok
    exact (inv_applyOps ops hInv hok).2.1
  · intro pending it hm
    exact idsOf_pendingUpsert_of_mem hm

/-- Witness for C4: the concrete run keeps pending ids unique, and a
pending upsert of a record whose id is already queued keeps the queue's
ids unchanged. -/
theorem claim4_pending_one_entry_per_id_witness :
    (idsOf (applyOps exStateOffline exOps).pendingSyncItems).Nodup ∧
    idsOf (pendingUpsert [exRecord] { exRecord with quantity := 9 }) =
      idsOf [exRecord] := by
  have hInv : Inv exStateOffline := by
    refine ⟨by decide, by decide, ?_⟩
    intro l hl
    cases hl
  refine ⟨claim4_pending_one_entry_per_id.1 exStateOffline exOps hInv ?_,
    claim4_pending_one_entry_per_id.2 [exRecord] { exRecord with quantity := 9 }
      (by decide)⟩
  exact ⟨(⟨by decide, by decide⟩ : freshFor exStateOffline "offline-1"), trivial, trivial, trivial,
    trivial, trivial, trivial⟩

/-- **C9**: a remote deleted event for an id absent from the collection is
a no-op: the state (collection, indices, pending queue, mode, storage) is
unchanged and no listener broadcast is issued. -/
theorem claim9_deleted_event_absent_noop :
    ∀ (s : ServiceState) (deletedId : String),
      deletedId ∉ idsOf s.reorderItems →
      (handleReorderItemDeleted s deletedId).state = s ∧
      (handleReorderItemDeleted s deletedId).broadcasts = [] := by
  intro s d habs
  have hfe : s.reorderItems.filter (fun i => i.id ≠ d) = s.reorderItems := by
    rw [List.filter_eq_self]
    intro a ha
    simp only [decide_eq_true_eq]
    intro had
    exact habs (List.mem_map.mpr ⟨a, ha, had⟩)
  constructor
  · show (handleReorderItemDeleted s d).state = s
    unfold handleReorderItemDeleted
    simp only [hfe, lt_self_iff_false, if_false]
  · show (handleReorderItemDeleted s d).broadcasts = []
    unfold handleReorderItemDeleted
    simp only [hfe, lt_self_iff_false, if_false]

/-- Witness for C9: the deleted event for the absent id `"zzz"` leaves the
concrete one-record state untouched and broadcasts nothing. -/
theorem claim9_deleted_event_absent_noop_witness :
    (handleReorderItemDeleted exStateOnline "zzz").state = exStateOnline ∧
    (handleReorderItemDeleted exStateOnline "zzz").broadcasts = [] :=
  claim9_deleted_event_absent_noop exStateOnline "zzz" (by decide)

/-- **C10**: `clear()` is pure towards the local state: whatever the remote
deletes do, it never modifies the collection, the pending queue, or the
offline snapshot, never notifies listeners, and `getItems()` afterwards
returns the same records. -/
theorem claim10_clear_never_mutates :
    ∀ (s : ServiceState) (deleteFails : String → Bool),
      (ReorderService.clear s deleteFails).1.state = s ∧
      (ReorderService.clear s deleteFails).1.broadcasts = [] ∧
      ReorderService.getItems (ReorderService.clear s deleteFails).1.state =
        ReorderService.getItems s :=
  fun _ _ => ⟨rfl, rfl, rfl⟩

/-- **C5**: in online mode, a thrown remote call inside `addItem` or
`addCustomItem` flips the session to offline mode, reroutes the in-flight
operation to the offline body (with the catch-block's `addedBy` default
and, for custom items, the catch-block's freshly minted id), and the call
still reports success; the failure is never surfaced. -/
theorem claim5_remote_error_absorbed :
    (∀ (s : ServiceState) (item : ConvertedItem) (q : Int) (td : Option TeamData)
        (ab : String) (ow : Bool) (now : Nat) (fid : String),
        s.isOfflineMode = false →
        (ReorderService.addItem s item q td ab ow now fid RemoteResult.err).ret = true ∧
        (ReorderService.addItem s item q td ab ow now fid
            RemoteResult.err).state.isOfflineMode = true ∧
        ReorderService.addItem s item q td ab ow now fid RemoteResult.err =
          addItemLocal { s with isOfflineMode := true } item q td
            (jsOr ab "Unknown User") ow now fid) ∧
    (∀ (s : ServiceState) (c : CustomItemInput) (now : Nat) (id1 id2 : String),
        s.isOfflineMode = false →
        (ReorderService.addCustomItem s c now id1 id2 RemoteResult.err).ret = true ∧
        (ReorderService.addCustomItem s c now id1 id2
            RemoteResult.err).state.isOfflineMode = true ∧
        ReorderService.addCustomItem s c now id1 id2 RemoteResult.err =
          addCustomItemLocal { s with isOfflineMode := true } c now id2) := by
  constructor
  · intro s item q td ab ow now fid hon
    have he : ReorderService.addItem s item q td ab ow now fid RemoteResult.err =
        addItemLocal { s with isOfflineMode := true } item q td
          (jsOr ab "Unknown User") ow now fid := by
      unfold ReorderService.addItem
      rw [if_neg (by simp [hon])]
    refine ⟨?_, ?_, he⟩
    · rw [he]
      exact addItemLocal_ret _ _ _ _ _ _ _ _
    · rw [he]
      exact addItemLocal_keeps_mode _ _ _ _ _ _ _ _
  · intro s c now id1 id2 hon
    have he : ReorderService.addCustomItem s c now id1 id2 RemoteResult.err =
        addCustomItemLocal { s with isOfflineMode := true } c now id2 := by
      unfold ReorderService.addCustomItem
      rw [if_neg (by simp [hon])]
    exact ⟨by rw [he]; rfl, by rw [he]; rfl, he⟩

/-- Witness for C5: from the default online state, both erroring writes
commit offline and return true. -/
theorem claim5_remote_error_absorbed_witness :
    ((ReorderService.addItem exState0 exItem 3 none "alice" false 100 "offline-1"
        RemoteResult.err).ret = true ∧
      (ReorderService.addItem exState0 exItem 3 none "alice" false 100 "offline-1"
        RemoteResult.err).state.isOfflineMode = true ∧
      ReorderService.addItem exState0 exItem 3 none "alice" false 100 "offline-1"
          RemoteResult.err =
        addItemLocal { exState0 with isOfflineMode := true } exItem 3 none
          (jsOr "alice" "Unknown User") false 100 "offline-1") ∧
    ((ReorderService.addCustomItem exState0
        { itemName := "Rope", quantity := 4, addedBy := "bob" } 100 "custom-1" "custom-2"
        RemoteResult.err).ret = true ∧
      (ReorderService.addCustomItem exState0
        { itemName := "Rope", quantity := 4, addedBy := "bob" } 100 "custom-1" "custom-2"
        RemoteResult.err).state.isOfflineMode = true ∧
      ReorderService.addCustomItem exState0
          { itemName := "Rope", quantity := 4, addedBy := "bob" } 100 "custom-1" "custom-2"
          RemoteResult.err =
        addCustomItemLocal { exState0 with isOfflineMode := true }
          { itemName := "Rope", quantity := 4, addedBy := "bob" } 100 "custom-2") :=
  ⟨claim5_remote_error_absorbed.1 exState0 exItem 3 none "alice" false 100 "offline-1" rfl,
   claim5_remote_error_absorbed.2 exState0
     { itemName := "Rope", quantity := 4, addedBy := "bob" } 100 "custom-1" "custom-2" rfl⟩

/-- The cache neither holds a fresh entry for the id (absent, or present
but at or past the TTL). -/
def cacheStale (cache : TeamCache) (itemId : String) (now : Nat) : Prop :=
  ∀ d ts, cacheGet cache itemId = some (d, ts) → ¬(now - ts < CACHE_DURATION)

theorem fetchTeamData_cached {cache : TeamCache} {itemId : String} {now : Nat}
    {tl tr : String → Option ItemDataRow} {d : TeamData} {ts : Nat}
    (hget : cacheGet cache itemId = some (d, ts)) :
    fetchTeamData cache itemId now tl tr =
      if now - ts < CACHE_DURATION then (some d, cache, 0)
      else fetchTeamDataMiss cache itemId now tl tr := by
  unfold fetchTeamData
  rw [hget]

theorem fetchTeamData_nocache {cache : TeamCache} {itemId : String} {now : Nat}
    {tl tr : String → Option ItemDataRow}
    (hget : cacheGet cache itemId = none) :
    fetchTeamData cache itemId now tl tr =
      fetchTeamDataMiss cache itemId now tl tr := by
  unfold fetchTeamData
  rw [hget]

/-- **C6**: a `fetchTeamData` read served by a cache entry younger than the
5-minute TTL returns the cached value, leaves the cache unchanged and
makes no remote call; a stale read consults the local store first (still
no remote call when it has a row), and only when the local store has no
entry is exactly one remote recovery fetch issued. -/
theorem claim6_team_cache_ttl :
    (∀ (cache : TeamCache) (itemId : String) (now : Nat)
        (tl tr : String → Option ItemDataRow) (d : TeamData) (ts : Nat),
        cacheGet cache itemId = some (d, ts) → now - ts < CACHE_DURATION →
        fetchTeamData cache itemId now tl tr = (some d, cache, 0)) ∧
    (∀ (cache : TeamCache) (itemId : String) (now : Nat)
        (tl tr : String → Option ItemDataRow) (row : ItemDataRow),
        cacheStale cache itemId now → tl itemId = some row →
        fetchTeamData cache itemId now tl tr =
          (some (teamDataOfRow row),
           cacheSet cache itemId (teamDataOfRow row, now), 0)) ∧
    (∀ (cache : TeamCache) (itemId : String) (now : Nat)
        (tl tr : String → Option ItemDataRow),
        cacheStale cache itemId now → tl itemId = none →
        (fetchTeamData cache itemId now tl tr).2.2 = 1) := by
  refine ⟨?_, ?_, ?_⟩
  · intro cache itemId now tl tr d ts hget hfresh
    rw [fetchTeamData_cached hget, if_pos hfresh]
  · intro cache itemId now tl tr row hstale hlocal
    have hmiss : fetchTeamDataMiss cache itemId now tl tr =
        (some (teamDataOfRow row),
         cacheSet cache itemId (teamDataOfRow row, now), 0) := by
      unfold fetchTeamDataMiss
      rw [hlocal]
    cases hget : cacheGet cache itemId with
    | some p =>
      obtain ⟨d, ts⟩ := p
      rw [fetchTeamData_cached hget, if_neg (hstale d ts hget)]
      exact hmiss
    | none =>
      rw [fetchTeamData_nocache hget]
      exact hmiss
  · intro cache itemId now tl tr hstale hlocal
    have hmiss : (fetchTeamDataMiss cache itemId now tl tr).2.2 = 1 := by
      unfold fetchTeamDataMiss recoverTeamDataFromDynamoDB
      rw [hlocal]
      cases tr itemId with
      | some row => rfl
      | none => rfl
    cases hget : cacheGet cache itemId with
    | some p =>
      obtain ⟨d, ts⟩ := p
      rw [fetchTeamData_cached hget, if_neg (hstale d ts hget)]
      exact hmiss
    | none =>
      rw [fetchTeamData_nocache hget]
      exact hmiss

/-- Witness for C6: a fresh cache hit for `"i1"` is served with no remote
call, a miss for `"i2"` is served by the local store with no remote call,
and a miss for `"i3"` (absent locally) issues exactly one remote fetch. -/
theorem claim6_team_cache_ttl_witness :
    fetchTeamData exCache "i1" 200 exTeamLocal exTeamRemote =
      (some { vendor := some "acme" }, exCache, 0) ∧
    fetchTeamData exCache "i2" 200 exTeamLocal exTeamRemote =
      (some (teamDataOfRow exRow),
       cacheSet exCache "i2" (teamDataOfRow exRow, 200), 0) ∧
    (fetchTeamData exCache "i3" 200 exTeamLocal exTeamRemote).2.2 = 1 := by
  have hstale2 : cacheStale exCache "i2" 200 := by
    intro d ts h
    have hnone : cacheGet exCache "i2" = none := rfl
    rw [hnone] at h
    exact Option.noConfusion h
  have hstale3 : cacheStale exCache "i3" 200 := by
    intro d ts h
    have hnone : cacheGet exCache "i3" = none := rfl
    rw [hnone] at h
    exact Option.noConfusion h
  exact ⟨claim6_team_cache_ttl.1 exCache "i1" 200 exTeamLocal exTeamRemote
      { vendor := some "acme" } 100 rfl (by decide),
    claim6_team_cache_ttl.2.1 exCache "i2" 200 exTeamLocal exTeamRemote exRow
      hstale2 rfl,
    claim6_team_cache_ttl.2.2 exCache "i3" 200 exTeamLocal exTeamRemote
      hstale3 rfl⟩

/-- **C7**: every operation that actually deletes a record from the
in-memory collection — `removeItem` on its locally-deleting paths (offline
mode or remote-error fallback) for a present id, and a remote deleted
event for a present id — leaves the remaining records' display indices as
the dense sequence `1..N` in their existing order. -/
theorem claim7_dense_indices_after_deletion :
    (∀ (s : ServiceState) (itemId : String) (remote : RemoteResult),
        s.isOfflineMode = true ∨ remote = RemoteResult.err →
        itemId ∈ idsOf s.reorderItems →
        DenseIdx (ReorderService.removeItem s itemId remote).state.reorderItems) ∧
    (∀ (s : ServiceState) (deletedId : String),
        deletedId ∈ idsOf s.reorderItems →
        DenseIdx (handleReorderItemDeleted s deletedId).state.reorderItems) := by
  constructor
  · intro s itemId remote hcase hmem
    unfold ReorderService.removeItem
    by_cases ho : s.isOfflineMode = true
    · rw [if_pos ho]
      exact denseIdx_removeItemLocal hmem
    · rw [if_neg ho]
      rcases hcase with hoff | hr
      · exact absurd hoff ho
      · subst hr
        exact denseIdx_removeItemLocal hmem
  · intro s deletedId hmem
    unfold handleReorderItemDeleted
    have hlt : (s.reorderItems.filter (fun i => i.id ≠ deletedId)).length <
        s.reorderItems.length := by
      obtain ⟨x, hx, hxid⟩ := List.mem_map.mp hmem
      exact length_filter_lt hx (by simp [hxid])
    rw [if_pos hlt]
    exact denseIdx_reindex _

/-- Witness for C7: deleting `"r1"` offline and via the remote deleted
event both re-index the remainder densely. -/
theorem claim7_dense_indices_after_deletion_witness :
    DenseIdx (ReorderService.removeItem exStateTwoRecords "r1"
      RemoteResult.ok).state.reorderItems ∧
    DenseIdx (handleReorderItemDeleted exStateTwoRecords "B").state.reorderItems :=
  ⟨claim7_dense_indices_after_deletion.1 exStateTwoRecords "r1" RemoteResult.ok
      (Or.inl rfl) (by decide),
   claim7_dense_indices_after_deletion.2 exStateTwoRecords "B" (by decide)⟩

/-- **C2** counterexample: in the concrete offline state the pending entry
keyed `"r1"` is removed by `removeItem("r1")` — an operation that is not a
flush and received no remote confirmation for that write — refuting "a
pending entry keyed X is removed if and only if a flush received remote
confirmation for X". -/
theorem claim2_counterexample :
    exStateOffline.isOfflineMode = true ∧
    idsOf exStateOffline.pendingSyncItems = ["r1"] ∧
    idsOf (ReorderService.removeItem exStateOffline "r1"
      RemoteResult.ok).state.pendingSyncItems = [] := by
  refine ⟨rfl, rfl, ?_⟩
  decide

/-- **C2** (amended): during a flush, a pending entry keyed X is removed
iff the resubmitted write for X was confirmed — a failed call leaves it
intact, and nothing is ever appended, so a retried flush cannot duplicate
it; in addition, `removeItem(X)` on a locally-deleting path also drops the
pending entry for X together with the record. -/
theorem claim2_amended_pending_removal :
    (∀ (s : ServiceState) (confirm : ReorderItem → Bool),
        (idsOf s.pendingSyncItems).Nodup →
        (ReorderService.syncPendingItems s confirm).pendingSyncItems =
          s.pendingSyncItems.filter (fun i => !confirm i)) ∧
    (∀ (s : ServiceState) (itemId : String) (remote : RemoteResult),
        s.isOfflineMode = true ∨ remote = RemoteResult.err →
        (ReorderService.removeItem s itemId remote).state.pendingSyncItems =
          if itemId ∈ idsOf s.reorderItems
          then s.pendingSyncItems.filter (fun i => i.id ≠ itemId)
          else s.pendingSyncItems) := by
  constructor
  · intro s confirm h2
    exact syncPendingItems_filter_confirm h2 confirm
  · intro s itemId remote hcase
    unfold ReorderService.removeItem
    by_cases ho : s.isOfflineMode = true
    · rw [if_pos ho]
      exact removeItemLocal_pending s itemId
    · rw [if_neg ho]
      rcases hcase with hoff | hr
      · exact absurd hoff ho
      · subst hr
        exact removeItemLocal_pending _ itemId

/-- Witness for the amended C2: a flush that confirms only `"r1"` keeps
exactly the unconfirmed entry, and offline `removeItem("r1")` drops the
record's pending entry. -/
theorem claim2_amended_pending_removal_witness :
    (ReorderService.syncPendingItems exStateTwoPending
        (fun i => i.id == "r1")).pendingSyncItems =
      exStateTwoPending.pendingSyncItems.filter (fun i => !(i.id == "r1")) ∧
    (ReorderService.removeItem exStateOffline "r1"
        RemoteResult.ok).state.pendingSyncItems =
      (if "r1" ∈ idsOf exStateOffline.reorderItems
       then exStateOffline.pendingSyncItems.filter (fun i => i.id ≠ "r1")
       else exStateOffline.pendingSyncItems) :=
  ⟨claim2_amended_pending_removal.1 exStateTwoPending (fun i => i.id == "r1")
     (by decide),
   claim2_amended_pending_removal.2 exStateOffline "r1" RemoteResult.ok (Or.inl rfl)⟩

/-- **C3** counterexample: online, with an existing record for source item
`"X"` at quantity 5, a successful `addItem(X, 3, overwrite=false)` returns
true but leaves the whole in-memory state unchanged — the record's
quantity stays 5 instead of becoming 8, refuting the claim for the online
branch. -/
theorem claim3_counterexample :
    (ReorderService.addItem exStateOnline exItem 3 none "u" false 200 "f1"
      RemoteResult.ok).ret = true ∧
    (ReorderService.addItem exStateOnline exItem 3 none "u" false 200 "f1"
      RemoteResult.ok).state = exStateOnline ∧
    ¬((ReorderService.addItem exStateOnline exItem 3 none "u" false 200 "f1"
        RemoteResult.ok).state.reorderItems.map (fun r => r.quantity) = [5 + 3]) := by
  refine ⟨rfl, rfl, ?_⟩
  decide

/-- **C3** (amended): on the offline branch and on the remote-error
fallback branch, `addItem` on an existing source-item record sums the
quantity (overwrite=false) or replaces it (overwrite=true) and sets the
record's updated timestamp to the current time; on the online success
branch the in-memory record is left unchanged (the server is updated and
the local copy converges via the update event). -/
theorem claim3_amended_addItem_quantity :
    (∀ (s : ServiceState) (item : ConvertedItem) (q : Int) (td : Option TeamData)
        (ab : String) (ow : Bool) (now : Nat) (fid : String) (remote : RemoteResult)
        (idx : Nat) (ex : ReorderItem),
        s.isOfflineMode = true ∨ remote = RemoteResult.err →
        findWithIdx (fun r => r.itemId = item.id) s.reorderItems = some (idx, ex) →
        (ReorderService.addItem s item q td ab ow now fid
            remote).state.reorderItems[idx]? =
          some { ex with quantity := if ow then q else ex.quantity + q,
                         updatedAt := now }) ∧
    (∀ (s : ServiceState) (item : ConvertedItem) (q : Int) (td : Option TeamData)
        (ab : String) (ow : Bool) (now : Nat) (fid : String),
        s.isOfflineMode = false →
        (ReorderService.addItem s item q td ab ow now fid
          RemoteResult.ok).state = s) := by
  constructor
  · intro s item q td ab ow now fid remote idx ex hcase hf
    unfold ReorderService.addItem
    by_cases ho : s.isOfflineMode = true
    · rw [if_pos ho]
      exact addItemLocal_found_getElem hf
    · rw [if_neg ho]
      rcases hcase with hoff | hr
      · exact absurd hoff ho
      · subst hr
        exact addItemLocal_found_getElem hf
  · intro s item q td ab ow now fid hon
    unfold ReorderService.addItem
    rw [if_neg (by simp [hon])]

/-- Witness for the amended C3: the offline add on the existing `"X"`
record yields quantity 5 + 3 with timestamp 200, and the online success
leaves the state unchanged. -/
theorem claim3_amended_addItem_quantity_witness :
    (ReorderService.addItem exStateOffline exItem 3 none "u" false 200 "f1"
        RemoteResult.ok).state.reorderItems[0]? =
      some { exRecord with
               quantity := (if false then 3 else exRecord.quantity + 3)
               updatedAt := 200 } ∧
    (ReorderService.addItem exStateOnline exItem 3 none "u" false 200 "f1"
        RemoteResult.ok).state = exStateOnline :=
  ⟨claim3_amended_addItem_quantity.1 exStateOffline exItem 3 none "u" false 200 "f1"
      RemoteResult.ok 0 exRecord (Or.inl rfl) (by decide),
   claim3_amended_addItem_quantity.2 exStateOnline exItem 3 none "u" false 200 "f1" rfl⟩

/-- **C8** counterexample: the broadcast snapshot is only a shallow copy —
record address 0 is an element of the freshly allocated snapshot array,
and mutating that record's fields through the snapshot changes the
engine's own collection view, refuting "no mutation the listener performs
on the callback argument changes the engine's internal collection state". -/
theorem claim8_counterexample :
    0 ∈ (broadcastSnapshot exMem).1.arrays (broadcastSnapshot exMem).2 ∧
    engineItemsView (writeRecord (broadcastSnapshot exMem).1 0
        (fun r => { r with quantity := 99 })) ≠ engineItemsView exMem := by
  constructor
  · decide
  · decide

/-- **C8** (amended): every broadcast hands the listener a fresh top-level
array, so array-level mutations of the callback argument never change the
engine's collection; but the records inside are shared by reference, so
mutating a record reachable through the snapshot does change the engine's
collection. -/
theorem claim8_amended_shallow_snapshot :
    (∀ (m : EngineMem), m.wf → ∀ (v : List Nat),
        engineItemsView (writeArray (broadcastSnapshot m).1
          (broadcastSnapshot m).2 v) = engineItemsView m) ∧
    (∀ (m : EngineMem) (r : Nat) (f : ReorderItem → ReorderItem), m.wf →
        r ∈ (broadcastSnapshot m).1.arrays (broadcastSnapshot m).2 →
        f (m.records r) ≠ m.records r →
        engineItemsView (writeRecord (broadcastSnapshot m).1 r f) ≠
          engineItemsView m) := by
  constructor
  · intro m hwf v
    have hne : m.collRef ≠ m.nextRef := Nat.ne_of_lt hwf
    unfold engineItemsView writeArray broadcastSnapshot
    simp [hne]
  · intro m r f hwf hmem hchg
    have hne : m.collRef ≠ m.nextRef := Nat.ne_of_lt hwf
    have hsnap : (broadcastSnapshot m).1.arrays (broadcastSnapshot m).2 =
        m.arrays m.collRef := by
      unfold broadcastSnapshot
      simp
    rw [hsnap] at hmem
    unfold engineItemsView writeRecord broadcastSnapshot
    simp only [hne, if_false]
    intro heq
    have hr := (List.map_inj_left.mp heq) r hmem
    simp only [if_pos rfl] at hr
    exact hchg hr

/-- Witness for the amended C8: replacing the snapshot array's contents
leaves the engine view unchanged, while a record mutation through the
snapshot changes it. -/
theorem claim8_amended_shallow_snapshot_witness :
    engineItemsView (writeArray (broadcastSnapshot exMem).1
      (broadcastSnapshot exMem).2 [5, 7]) = engineItemsView exMem ∧
    engineItemsView (writeRecord (broadcastSnapshot exMem).1 0
        (fun r => { r with quantity := 99 })) ≠ engineItemsView exMem :=
  ⟨claim8_amended_shallow_snapshot.1 exMem Nat.zero_lt_one [5, 7],
   claim8_amended_shallow_snapshot.2 exMem 0 (fun r => { r with quantity := 99 })
     Nat.zero_lt_one (by decide) (by decide)⟩

end ReorderModel
